import Mathlib

/-!
Verification development for the FPL Discord bot (`src/index.js`).

Shallow embedding conventions:
* JavaScript strings are Lean `String`s; the character-level operations the
  source performs with regexes and `toLowerCase`/`trim` are re-implemented
  over `List Char` (kernel-reducible), modelling the ASCII behaviour the
  code relies on (Unicode NFD diacritic stripping is not modelled; no claim
  depends on it).
* JavaScript numbers appearing in scores/positions are modelled as `ℚ`;
  player prices (always one-decimal pound values) are modelled as integer
  *tenths* (`ℤ`), so `£5.5` is `55`.
* Missing object fields (`undefined`) are `Option.none`; the `??` operator
  is `firstSome`, the `||` operator on strings is `jsOrStr` (empty string is
  falsy).
* `Array.prototype.sort` (stable in Node) is modelled by `List.mergeSort`,
  which is stable.
* Times are integer milliseconds; the `Date` calendar arithmetic the
  schedulers perform is modelled on a DST-free clock (the code itself runs
  the arithmetic on the server's local calendar after the "offset trick"),
  with nonnegative epoch values where JS remainder and Euclidean remainder
  agree.
-/

namespace Fpl

/-- ASCII lower-casing of a string, modelling `String.prototype.toLowerCase`
on the ASCII inputs the bot handles. -/
def jsToLower (s : String) : String := String.mk (s.data.map Char.toLower)

/-- JS whitespace (the characters `String.prototype.trim` removes that occur
in the bot's data). -/
def isJsWs (c : Char) : Bool := c = ' ' || c = '\t' || c = '\n' || c = '\r'

/-- `String.prototype.trim`. -/
def jsTrim (s : String) : String :=
  String.mk (((s.data.dropWhile isJsWs).reverse.dropWhile isJsWs).reverse)

/-- `a ?? b ?? … ?? d`: first present (non-nullish) value, else the default. -/
def firstSome (l : List (Option α)) (d : α) : α :=
  match l with
  | [] => d
  | some a :: _ => a
  | none :: rest => firstSome rest d

/-- `a || b` on JS strings: empty string is falsy. -/
def jsOrStr (a b : String) : String := if a = "" then b else a

/-- `normalizeStr` (src/index.js:1191): `String(x||"").trim().toLowerCase()`. -/
def normalizeStr (x : String) : String := jsToLower (jsTrim x)

/-- `normalizeStr` applied to a possibly-missing value (`String(x||"")`). -/
def normalizeStrOpt (x : Option String) : String := normalizeStr (x.getD "")

/-- Canonical league-table row produced by `normalizeTeams`
(src/index.js:1324-1350). -/
structure TeamStanding where
  position : ℚ
  team : String
  owner : String
  totalScore : ℚ
  h2hPoints : ℚ
  value : ℚ
  recent : String
deriving DecidableEq, Repr

/-- A raw league-table row, with every field-name alias `normalizeTeams`
consults. Numeric fields are modelled as already-numeric (the `Number(...)`
coercion applied to numeric payloads); `currentTeamValue` stands for the
`"Current Team Value"` key. -/
structure RawRow where
  capPosition : Option ℚ := none      -- `Position`
  position : Option ℚ := none
  rank : Option ℚ := none
  capTeam : Option String := none     -- `Team`
  team : Option String := none
  team_name : Option String := none
  entry_name : Option String := none
  name : Option String := none
  capOwner : Option String := none    -- `Owner`
  owner : Option String := none
  manager : Option String := none
  owner_name : Option String := none
  player_name : Option String := none
  user : Option String := none
  coach : Option String := none
  capScore : Option ℚ := none         -- `Score`
  total_score : Option ℚ := none
  points_for : Option ℚ := none
  season_points : Option ℚ := none
  capPoints : Option ℚ := none        -- `Points`
  points : Option ℚ := none
  h2h_points : Option ℚ := none
  h2h : Option ℚ := none
  total : Option ℚ := none
  currentTeamValue : Option ℚ := none -- `"Current Team Value"`
  value : Option ℚ := none
  team_value : Option ℚ := none
  form : Option String := none
  recent : Option String := none
deriving Repr

/-- One mapped row of `normalizeTeams` (the body of the `.map`, with `i`
the 0-based index). -/
def normalizeRow (i : ℕ) (r : RawRow) : TeamStanding :=
  { position := firstSome [r.capPosition, r.position, r.rank] ((i : ℚ) + 1)
    team := firstSome [r.capTeam, r.team, r.team_name, r.entry_name, r.name] "Unknown Team"
    owner := firstSome [r.capOwner, r.owner, r.manager, r.owner_name, r.player_name,
      r.user, r.coach] "Unknown"
    totalScore := firstSome [r.capScore, r.total_score, r.points_for, r.season_points] 0
    h2hPoints := firstSome [r.capPoints, r.points, r.h2h_points, r.h2h, r.total] 0
    value := firstSome [r.currentTeamValue, r.value, r.team_value] 0
    recent := jsOrStr (r.form.getD "") (r.recent.getD "") }

/-- `normalizeTeams` (src/index.js:1324-1350): alias resolution on each row,
then a stable sort ascending by `position`. -/
def normalizeTeams (rows : List RawRow) : List TeamStanding :=
  ((rows.enum.map fun p => normalizeRow p.1 p.2).mergeSort
    fun a b => decide (a.position ≤ b.position))

/-- Re-feeding a canonical `TeamStanding` to `normalizeTeams`: the JS output
object carries exactly the keys `position`, `team`, `owner`, `totalScore`,
`h2hPoints`, `value`, `recent`; of these only `position`, `team`, `owner`,
`value`, `recent` occur in the alias lists. -/
def rawOfStanding (s : TeamStanding) : RawRow :=
  { position := some s.position
    team := some s.team
    owner := some s.owner
    value := some s.value
    recent := some s.recent }

/-- `totalScore`/`h2hPoints` zeroing that re-normalisation performs. -/
def zeroScores (s : TeamStanding) : TeamStanding :=
  { s with totalScore := 0, h2hPoints := 0 }

/-! ### Rivalries and the drama-score matchup selection (src/index.js:1207-1401) -/

/-- A rivalry record (`RIVALRIES` entries). A missing JS field normalises to
the empty string, which is falsy everywhere the code tests it, so fields are
plain strings with `""` standing for "absent". -/
structure Rivalry where
  league : String := ""
  a_owner : String := ""
  b_owner : String := ""
  a_team : String := ""
  b_team : String := ""
  label : String := ""
  reason : String := ""
deriving DecidableEq, Repr

/-- `rivalryMatches(league, a, b)` (src/index.js:1207-1225). `league = none`
models a nullish/empty `league` argument (then every league-scoped record is
skipped, since a string never equals `undefined`). Returns the
`{label, reason}` pair of the first matching record. -/
def rivalryMatches (rivalries : List Rivalry) (league : Option String)
    (a b : TeamStanding) : Option (String × String) :=
  let la := league.map normalizeStr
  let ao := normalizeStr a.owner
  let atm := normalizeStr a.team
  let bo := normalizeStr b.owner
  let btm := normalizeStr b.team
  (rivalries.find? fun r =>
    let keep := r.league = "" ∨ la = some (normalizeStr r.league)
    let rao := normalizeStr r.a_owner
    let rat := normalizeStr r.a_team
    let rbo := normalizeStr r.b_owner
    let rbt := normalizeStr r.b_team
    let matchAB := ((rao ≠ "" ∧ rao = ao) ∨ (rat ≠ "" ∧ rat = atm)) ∧
                   ((rbo ≠ "" ∧ rbo = bo) ∨ (rbt ≠ "" ∧ rbt = btm))
    let matchBA := ((rbo ≠ "" ∧ rbo = ao) ∨ (rbt ≠ "" ∧ rbt = atm)) ∧
                   ((rao ≠ "" ∧ rao = bo) ∨ (rat ≠ "" ∧ rat = btm))
    decide (keep ∧ (matchAB ∨ matchBA))).map fun r =>
      (jsOrStr r.label "Rivalry match!", jsOrStr r.reason "Historic grudge match.")

/-- A raw fixture row with the aliases `normalizeFixture` consults
(src/index.js:1716-1722). -/
structure RawFixture where
  home_owner : Option String := none
  a_owner : Option String := none
  owner_a : Option String := none
  owner1 : Option String := none
  home_manager : Option String := none
  away_owner : Option String := none
  b_owner : Option String := none
  owner_b : Option String := none
  owner2 : Option String := none
  away_manager : Option String := none
  home_team : Option String := none
  a_team : Option String := none
  team_a : Option String := none
  team1 : Option String := none
  home : Option String := none
  away_team : Option String := none
  b_team : Option String := none
  team_b : Option String := none
  team2 : Option String := none
  away : Option String := none
deriving Repr

/-- Normalised fixture shape. The JS `||` chains skip empty strings as well
as missing fields; `none` models "all aliases nullish/falsy". -/
structure NormFixture where
  aOwner : Option String
  bOwner : Option String
  aTeam : Option String
  bTeam : Option String
deriving Repr

/-- `x || y` on optional strings, where the empty string is falsy. -/
def jsOrOpt (x y : Option String) : Option String :=
  match x with
  | some s => if s = "" then y else some s
  | none => y

/-- `normalizeFixture` (src/index.js:1716-1722). -/
def normalizeFixture (fx : RawFixture) : NormFixture :=
  { aOwner := jsOrOpt fx.home_owner (jsOrOpt fx.a_owner (jsOrOpt fx.owner_a
      (jsOrOpt fx.owner1 fx.home_manager)))
    bOwner := jsOrOpt fx.away_owner (jsOrOpt fx.b_owner (jsOrOpt fx.owner_b
      (jsOrOpt fx.owner2 fx.away_manager)))
    aTeam := jsOrOpt fx.home_team (jsOrOpt fx.a_team (jsOrOpt fx.team_a
      (jsOrOpt fx.team1 fx.home)))
    bTeam := jsOrOpt fx.away_team (jsOrOpt fx.b_team (jsOrOpt fx.team_b
      (jsOrOpt fx.team2 fx.away))) }

/-- The `byName` lookup table (src/index.js:1359-1363): built by assigning
`byName[normalizeStr(t.owner)] = t` and `byName[normalizeStr(t.team)] = t`
for each team in order, so a key resolves to the **last** team whose
normalised owner or team name equals it. -/
def byName (teams : List TeamStanding) (k : String) : Option TeamStanding :=
  teams.reverse.find? fun t =>
    decide (normalizeStr t.owner = k) || decide (normalizeStr t.team = k)

/-- One scored fixture (`scored` entries, src/index.js:1364-1382). -/
structure ScoredMatchup where
  a : TeamStanding
  b : TeamStanding
  score : ℚ
  riv : Option (String × String)
deriving DecidableEq, Repr

/-- The drama score of a joined matchup (src/index.js:1370-1380):
`100 − min(100, |h2hGap|) + (totalScore sum)/1000`, `+25` if both positions
are `≤ 6`, `+20` if both positions are `≥ teams.length − 4`, `+100` if a
rivalry record matches. `nTeams` is `teams.length`. -/
def dramaScore (rivalries : List Rivalry) (league : Option String) (nTeams : ℕ)
    (a b : TeamStanding) : ℚ :=
  let h2hGap := |a.h2hPoints - b.h2hPoints|
  let s₁ : ℚ := 100 - min 100 h2hGap
  let s₂ : ℚ := s₁ + (a.totalScore + b.totalScore) / 1000
  let s₃ : ℚ := if a.position ≤ 6 ∧ b.position ≤ 6 then s₂ + 25 else s₂
  let s₄ : ℚ := if a.position ≥ (nTeams : ℚ) - 4 ∧ b.position ≥ (nTeams : ℚ) - 4
    then s₃ + 20 else s₃
  if (rivalryMatches rivalries league a b).isSome then s₄ + 100 else s₄

/-- Joining and scoring the fixture list (the `scored` array before sorting,
src/index.js:1364-1382); unjoinable fixtures are skipped. -/
def scoreFixtures (rivalries : List Rivalry) (league : Option String)
    (teams : List TeamStanding) (fixtures : List RawFixture) : List ScoredMatchup :=
  fixtures.filterMap fun fx =>
    let n := normalizeFixture fx
    match byName teams (normalizeStrOpt n.aOwner) <|> byName teams (normalizeStrOpt n.aTeam),
          byName teams (normalizeStrOpt n.bOwner) <|> byName teams (normalizeStrOpt n.bTeam) with
    | some a, some b =>
        some { a := a, b := b
               score := dramaScore rivalries league teams.length a b
               riv := rivalryMatches rivalries league a b }
    | _, _ => none

/-- A selected matchup (`picks` entries). -/
structure MatchupPick where
  pair : TeamStanding × TeamStanding
  label : String
  reason : String
deriving DecidableEq, Repr

/-- The reason string assigned to a pick (src/index.js:1390-1396). -/
def pickReason (nTeams : ℕ) (s : ScoredMatchup) : String :=
  match s.riv with
  | some riv => riv.2
  | none =>
    if s.a.position ≤ 6 ∧ s.b.position ≤ 6 then
      "It's all to play for between two teams pushing for a place in Europe."
    else if s.a.position ≥ (nTeams : ℚ) - 4 ∧ s.b.position ≥ (nTeams : ℚ) - 4 then
      "A six point swing matters all the more when you're facing the drop!"
    else
      "Not much between two teams trying to build momentum!"

/-- The greedy selection loop (src/index.js:1384-1399): walk the sorted list,
skip a matchup whose **ordered** key `a.team + "|" + b.team` was already
used, stop once three picks are made. `used` is the set of seen keys and
`n` the number of picks made so far. -/
def greedyPicks (nTeams : ℕ) (used : List String) (n : ℕ) :
    List ScoredMatchup → List MatchupPick
  | [] => []
  | s :: rest =>
    let key := s.a.team ++ "|" ++ s.b.team
    if key ∈ used then greedyPicks nTeams used n rest
    else
      let pick : MatchupPick :=
        { pair := (s.a, s.b)
          label := "Matchup " ++ toString (n + 1)
          reason := pickReason nTeams s }
      if n + 1 ≥ 3 then [pick]
      else pick :: greedyPicks nTeams (key :: used) (n + 1) rest

/-- `selectDramaticMatchups` on the fixtures path (src/index.js:1353-1401),
i.e. the behaviour when `fixtures` is a nonempty array: return `[]` when
fewer than six teams, otherwise join, score, sort descending by score
(stable) and greedily pick up to three. The separate no-fixtures heuristic
path is not modelled (no claim addresses it). -/
def selectDramaticMatchupsFixtures (rivalries : List Rivalry) (league : Option String)
    (teams : List TeamStanding) (fixtures : List RawFixture) : List MatchupPick :=
  if teams.length < 6 then []
  else
    let sorted := (scoreFixtures rivalries league teams fixtures).mergeSort
      fun x y => decide (y.score ≤ x.score)
    greedyPicks teams.length [] 0 sorted

/-! ### Price-change signatures and the confirmed-price poster
(src/index.js:2538-2562, 2807-2825) -/

/-- A confirmed price-change row (output of `parseConfirmedTable`). Prices
are one-decimal pound values stored as integer tenths (`£5.5` is `55`);
they are nonnegative in all real data. -/
structure PriceRow where
  name : String
  team : String
  old : ℤ
  next : ℤ
deriving DecidableEq, Repr

/-- `{risers, fallers}` as returned by `fetchConfirmedPriceChanges`. -/
structure PriceChanges where
  risers : List PriceRow
  fallers : List PriceRow
deriving DecidableEq, Repr

/-- Is `c` an ASCII lowercase letter or digit? -/
def isLowerDigit (c : Char) : Bool :=
  ('a'.toNat ≤ c.toNat && c.toNat ≤ 'z'.toNat) ||
  ('0'.toNat ≤ c.toNat && c.toNat ≤ '9'.toNat)

/-- `normalizePlayerKey` (src/index.js:2389-2394): lower-case, then drop
every character outside `[a-z0-9]` (modelled for ASCII names; the NFD
diacritic stripping step is the identity on ASCII). -/
def normalizePlayerKey (s : String) : String :=
  String.mk ((jsToLower s).data.filter isLowerDigit)

/-- `toPriceFloat` (src/index.js:2367-2373) on a price of `p` tenths: an
integer value (`p % 10 = 0`) that is `≥ 20` pounds (`p ≥ 200`) is divided
by ten, otherwise kept. -/
def toPriceFloatTenths (p : ℤ) : ℤ :=
  if p % 10 = 0 ∧ 200 ≤ p then p / 10 else p

/-- JS `Number`-to-string for a nonnegative one-decimal value of `p` tenths:
`"7"` for `70`, `"5.5"` for `55`. -/
def jsNumStrTenths (p : ℤ) : String :=
  if p % 10 = 0 then toString (p / 10)
  else toString (p / 10) ++ "." ++ toString (p % 10)

/-- The per-row component of the confirmed-post signature
(src/index.js:2813-2814):
`normalizePlayerKey(name) + "|" + team.toLowerCase() + "|" + old + "->" + next`
with both prices passed through `toPriceFloat`. -/
def confRowKey (x : PriceRow) : String :=
  normalizePlayerKey x.name ++ "|" ++ jsToLower x.team ++ "|" ++
    jsNumStrTenths (toPriceFloatTenths x.old) ++ "->" ++
    jsNumStrTenths (toPriceFloatTenths x.next)

/-- JSON string escaping (backslash and double quote; the bot's keys contain
no control characters). -/
def jsonQuote (s : String) : String :=
  "\"" ++ String.mk (s.data.flatMap fun c =>
    if c = '\\' then ['\\', '\\'] else if c = '"' then ['\\', '"'] else [c]) ++ "\""

/-- `JSON.stringify({r: risers.map(key).slice(0,100), f: ...})`
(src/index.js:2812-2815). The row lists are used **in their incoming
order** — no sorting, no deduplication. -/
def confSig (chg : PriceChanges) : String :=
  "\x7b\"r\":[" ++
    String.intercalate "," (((chg.risers.map confRowKey).take 100).map jsonQuote) ++
  "],\"f\":[" ++
    String.intercalate "," (((chg.fallers.map confRowKey).take 100).map jsonQuote) ++
  "]\x7d"

/-- `fmtPrice` (src/index.js:2382-2386) on `p` tenths: `£` + one-decimal
rendering (`toFixed(1)`) + `m`. -/
def fmtPrice (p : ℤ) : String :=
  let v := toPriceFloatTenths p
  "£" ++ toString (v / 10) ++ "." ++ toString (v % 10) ++ "m"

/-- `buildConfirmedMessage` (src/index.js:2730-2758). -/
def buildConfirmedMessage (chg : PriceChanges) : String :=
  let teamText (t : String) : String := if t = "" then "" else " (" ++ t ++ ")"
  let riserLine (p : PriceRow) : String :=
    "**" ++ p.name ++ "**" ++ teamText p.team ++ " - " ++
      fmtPrice p.old ++ " 📈 " ++ fmtPrice p.next
  let fallerLine (p : PriceRow) : String :=
    "**" ++ p.name ++ "**" ++ teamText p.team ++ " - " ++
      fmtPrice p.old ++ " 📉 " ++ fmtPrice p.next
  let lines :=
    ["**PRICE CHANGE:**", "", "**Risers:**"] ++
    (if chg.risers = [] then ["_None_"] else chg.risers.map riserLine) ++
    ["", "**Fallers:**"] ++
    (if chg.fallers = [] then ["_None_"] else chg.fallers.map fallerLine)
  String.intercalate "\n" lines

/-- One invocation of `postConfirmedIfChanged` (src/index.js:2807-2825),
given the fetched `chg` and the current `__LAST_CONF_SIG` state. Returns
the new state and whether a Discord message was sent: nothing is sent when
the signature is empty or equals the last one seen; otherwise the state is
updated and the (always nonempty) message is sent. -/
def postConfirmedStep (lastSig : String) (chg : PriceChanges) : String × Bool :=
  let sig := confSig chg
  if sig = "" ∨ sig = lastSig then (lastSig, false)
  else (sig, jsTrim (buildConfirmedMessage chg) ≠ "")

/-- Number of outbound posts over two consecutive invocations that observe
`c₁` then `c₂`, starting from signature state `s₀`. -/
def postsOverTwo (s₀ : String) (c₁ c₂ : PriceChanges) : ℕ :=
  let r₁ := postConfirmedStep s₀ c₁
  let r₂ := postConfirmedStep r₁.1 c₂
  (if r₁.2 then 1 else 0) + (if r₂.2 then 1 else 0)

/-! ### HTTP retry loop (`getWithRetries`, src/index.js:79-124) -/

/-- A failed attempt: the HTTP status, if any (`none` is a connection
error), and the numeric value of a `Retry-After` header when present
(`none` covers both "no header" and "non-numeric header"). -/
structure HttpErr where
  status : Option ℕ
  retryAfter : Option ℚ
deriving Repr

/-- `RETRYABLE.has(status)`, with a missing status counted retryable
(src/index.js:34, 100). -/
def retryableErr (e : HttpErr) : Bool :=
  match e.status with
  | none => true
  | some c => c == 429 || c == 500 || c == 502 || c == 503 || c == 504

/-- The delay slept before the retry following failed attempt `attempt`
(src/index.js:108-114): `BASE_DELAY_MS * 2^attempt`, raised to
`Retry-After * 1000` when that header is numeric and positive, plus the
nonnegative jitter. -/
def retryDelay (baseDelay : ℚ) (attempt : ℕ) (e : HttpErr) (jit : ℕ) : ℚ :=
  let d := baseDelay * 2 ^ attempt
  let d := match e.retryAfter with
    | some sec => if 0 < sec then max d (sec * 1000) else d
    | none => d
  d + jit

/-- Observable outcome of one `getWithRetries` call. -/
structure RetryRun where
  attempts : ℕ
  delays : List ℚ
  success : Bool
deriving Repr

/-- The retry loop from attempt index `attempt` on, with `fuel` remaining
iterations (the loop runs for `attempt = 0 .. MAX_RETRIES`). `outcomes k`
is what the `k`-th GET does; `jit k` the jitter drawn before the retry
after attempt `k`. -/
def retryFrom (maxRetries : ℕ) (baseDelay : ℚ) (outcomes : ℕ → Option HttpErr)
    (jit : ℕ → ℕ) : ℕ → ℕ → RetryRun
  | 0, _ => { attempts := 0, delays := [], success := false }
  | fuel + 1, attempt =>
    match outcomes attempt with
    | none => { attempts := 1, delays := [], success := true }
    | some e =>
      if attempt < maxRetries ∧ retryableErr e then
        let r := retryFrom maxRetries baseDelay outcomes jit fuel (attempt + 1)
        { attempts := r.attempts + 1
          delays := retryDelay baseDelay attempt e (jit attempt) :: r.delays
          success := r.success }
      else { attempts := 1, delays := [], success := false }

/-- `getWithRetries` (src/index.js:79-124), abstracted over the outcome of
each attempt: at most `maxRetries + 1` attempts in total. -/
def getWithRetries (maxRetries : ℕ) (baseDelay : ℚ) (outcomes : ℕ → Option HttpErr)
    (jit : ℕ → ℕ) : RetryRun :=
  retryFrom maxRetries baseDelay outcomes jit (maxRetries + 1) 0

/-! ### Scheduler delay computations (src/index.js:837-957)

`now` is the server clock and `tzNow` the target-zone wall clock, both as
millisecond instants (`new Date(now.toLocaleString(..., {timeZone: tz}))`);
`offset = tzNow − now` is the code's "offset trick". Calendar arithmetic
(`getDay`, `setDate`, `setHours`) is modelled on a DST-free day grid with
nonnegative instants (where JS remainder and Euclidean remainder agree). -/

/-- Milliseconds per day / hour / minute. -/
def msDay : ℤ := 86400000

def msHour : ℤ := 3600000

def msMinute : ℤ := 60000

/-- Start of the wall-clock day containing instant `t`. -/
def dayStart (t : ℤ) : ℤ := t - t % msDay

/-- `msUntilNextWeekly(weekday, hour, minute, tz)` (src/index.js:837-857). -/
def msUntilNextWeekly (weekday hour minute : ℤ) (now tzNow : ℤ) : ℤ :=
  let offset := tzNow - now
  let day := (tzNow / msDay + 4) % 7           -- epoch day 0 was a Thursday
  let hours := tzNow % msDay / msHour
  let minutes := tzNow % msHour / msMinute
  let addDays₀ := (weekday - day + 7) % 7
  let alreadyPassed := addDays₀ = 0 ∧
    (hours > hour ∨ (hours = hour ∧ minutes ≥ minute))
  let addDays := if alreadyPassed then 7 else addDays₀
  let shifted := tzNow + addDays * msDay       -- target.setDate(getDate()+addDays)
  let target := dayStart shifted + hour * msHour + minute * msMinute
  max 0 (target - offset - now)

/-- `msUntilNextDaily(hour, minute, tz)` (src/index.js:878-889). -/
def msUntilNextDaily (hour minute : ℤ) (now tzNow : ℤ) : ℤ :=
  let offset := tzNow - now
  let target₀ := dayStart tzNow + hour * msHour + minute * msMinute
  let target := if target₀ ≤ tzNow then target₀ + msDay else target₀
  max 0 (target - offset - now)

/-- The local-wall-clock instant `setHours(h, m, 0, 0)` builds on the day of
`tzNow`. -/
def localTarget (tzNow : ℤ) (t : ℤ × ℤ) : ℤ :=
  dayStart tzNow + t.1 * msHour + t.2 * msMinute

/-- The per-call `msUntilNext` of `scheduleAtLocalTimes`
(src/index.js:915-941). `times` are the parsed `(hour, minute)` pairs; an
empty list behaves like the code's `parseHM(times[0])` on `undefined`,
namely `(0, 0)`. Candidates are the configured times still strictly in the
future today; when none remain, **the first configured time** tomorrow.
The sort-ascending-and-take-head of the code is the list minimum. -/
def msUntilNextAtLocalTimes (times : List (ℤ × ℤ)) (now tzNow : ℤ) : ℤ :=
  let offset := tzNow - now
  let cands := times.filterMap fun t =>
    let tl := localTarget tzNow t
    if tl > tzNow then some (tl - offset) else none
  let cands := if cands = [] then
      [localTarget tzNow (times.head?.getD (0, 0)) + msDay - offset]
    else cands
  max 0 (cands.min?.getD 0 - now)

/-- Modelled from the spec: the fallback the claim describes — when no
configured time remains today, fire at the **earliest** of the configured
times tomorrow (instead of `times[0]`). -/
def msUntilNextAtLocalTimesSpec (times : List (ℤ × ℤ)) (now tzNow : ℤ) : ℤ :=
  let offset := tzNow - now
  let cands := times.filterMap fun t =>
    let tl := localTarget tzNow t
    if tl > tzNow then some (tl - offset) else none
  let cands := if cands = [] then
      (times.map fun t => localTarget tzNow t + msDay - offset)
    else cands
  max 0 (cands.min?.getD 0 - now)

/-! ### Text-proxy envelope (`fetchRenderedHtml` stage 3, src/index.js:509-517) -/

/-- Global single-character regex replacement (`String.replace(/c/g, r)`). -/
def charReplace (c : Char) (r : List Char) : List Char → List Char
  | [] => []
  | x :: xs => (if x = c then r else [x]) ++ charReplace c r xs

/-- The escaping `fetchRenderedHtml` applies to proxy text
(src/index.js:516): `&` → `&amp;`, then `<` → `&lt;`, then newline →
`<br/>`. Note `>` is never replaced. -/
def escapeProxyText (t : String) : String :=
  String.mk (charReplace '\n' "<br/>".data
    (charReplace '<' "&lt;".data
      (charReplace '&' "&amp;".data t.data)))

/-- The proxy-text envelope returned by `fetchRenderedHtml`'s final stage. -/
def wrapProxyText (t : String) : String :=
  "<html><body><main>" ++ escapeProxyText t ++ "</main></body></html>"

/-- Per-character description of the escaping the code actually performs
(`>` maps to itself). -/
def escChar (c : Char) : List Char :=
  if c = '&' then "&amp;".data
  else if c = '<' then "&lt;".data
  else if c = '\n' then "<br/>".data
  else [c]

/-- Modelled from the spec: the envelope the claim describes, with **both**
angle brackets escaped (`>` → `&gt;` as well). -/
def wrapProxyTextSpec (t : String) : String :=
  "<html><body><main>" ++
    String.mk (t.data.flatMap fun c =>
      if c = '&' then "&amp;".data
      else if c = '<' then "&lt;".data
      else if c = '>' then "&gt;".data
      else if c = '\n' then "<br/>".data
      else [c]) ++
  "</main></body></html>"

/-! ### Multi-section extraction (src/index.js:390-423, 519-618)

The DOM cheerio produces is modelled by `HNode`; `htmlToText` is the
source's regex pipeline re-implemented over character lists. -/

/-- A parsed DOM node (tag names are stored lowercase, as cheerio does). -/
inductive HNode where
  | textNode (s : String) : HNode
  | elem (tag : String) (attrs : List (String × String)) (children : List HNode) : HNode

/-- Serializer text escaping (parse5 escapes `&`, `<`, `>` in text nodes). -/
def escTextL (l : List Char) : List Char :=
  l.flatMap fun c =>
    if c = '&' then "&amp;".data
    else if c = '<' then "&lt;".data
    else if c = '>' then "&gt;".data
    else [c]

/-- Serializer attribute escaping (parse5 escapes `&` and `"`). -/
def escAttrL (l : List Char) : List Char :=
  l.flatMap fun c =>
    if c = '&' then "&amp;".data
    else if c = '"' then "&quot;".data
    else [c]

/-- Attribute serialization: ` key="value"` per attribute. -/
def serializeAttrs : List (String × String) → String
  | [] => ""
  | (k, v) :: rest => " " ++ k ++ "=\"" ++ String.mk (escAttrL v.data) ++ "\"" ++
      serializeAttrs rest

mutual

/-- `$.html(node)`: outer HTML of a node (void-element special cases are not
needed by the modelled pages). -/
def serializeNode : HNode → String
  | .textNode s => String.mk (escTextL s.data)
  | .elem t a c => "<" ++ t ++ serializeAttrs a ++ ">" ++ serializeForest c ++ "</" ++ t ++ ">"

/-- Serialization of a list of sibling nodes. -/
def serializeForest : List HNode → String
  | [] => ""
  | n :: rest => serializeNode n ++ serializeForest rest

end

mutual

/-- `.text()`: concatenated text content of a node. -/
def textContentNode : HNode → String
  | .textNode s => s
  | .elem _ _ c => textContentForest c

/-- Concatenated text content of sibling nodes. -/
def textContentForest : List HNode → String
  | [] => ""
  | n :: rest => textContentNode n ++ textContentForest rest

end

mutual

/-- Elements of a subtree (the node itself, then its descendants, in
document order) whose tag is in `tags`. -/
def findTagsNode (tags : List String) : HNode → List HNode
  | .textNode _ => []
  | .elem t a c =>
    (if jsToLower t ∈ tags then [HNode.elem t a c] else []) ++ findTagsForest tags c

/-- Elements of a forest (in document order) whose tag is in `tags`. -/
def findTagsForest (tags : List String) : List HNode → List HNode
  | [] => []
  | n :: rest => findTagsNode tags n ++ findTagsForest tags rest

end

/-- `.find(sel)` over a forest: all elements (in document order) whose tag
is in `tags`, descending into subtrees. -/
def findTagsInForest (tags : List String) (l : List HNode) : List HNode :=
  findTagsForest tags l

/-- Children of a node. -/
def childrenOf : HNode → List HNode
  | .textNode _ => []
  | .elem _ _ c => c

/-- Is this node an `h2`/`h3` element (`/^(h2|h3)$/i` on a tag node)? -/
def isH23 (n : HNode) : Bool :=
  match n with
  | .elem t _ _ => jsToLower t = "h2" || jsToLower t = "h3"
  | _ => false

/-- The `level` helper (src/index.js:566-569): `h2 → 2`, `h3 → 3`, else 9. -/
def headerLevel (n : HNode) : ℕ :=
  match n with
  | .elem t _ _ => if jsToLower t = "h2" then 2 else if jsToLower t = "h3" then 3 else 9
  | _ => 9

mutual

/-- The `h2`/`h3` headers inside a node's subtree (excluding the node),
paired with their following siblings. -/
def headerBlocksNode : HNode → List (HNode × List HNode)
  | .textNode _ => []
  | .elem _ _ c => headerBlocksForest c

/-- All `h2`/`h3` headers of a forest in document order, each paired with
the full list of its following siblings (the `start.next` chain). -/
def headerBlocksForest : List HNode → List (HNode × List HNode)
  | [] => []
  | n :: rest =>
    (if isH23 n then [(n, rest)] else []) ++ headerBlocksNode n ++ headerBlocksForest rest

end

/-- The header/sibling pairs `root.find("h2,h3")` walks. -/
def headerBlocks (l : List HNode) : List (HNode × List HNode) :=
  headerBlocksForest l

/-- Collect the siblings following a header until the next `h2`/`h3` of
equal-or-higher level (src/index.js:577-582). -/
def takeBlock (startLevel : ℕ) : List HNode → List HNode
  | [] => []
  | n :: rest =>
    if isH23 n ∧ headerLevel n ≤ startLevel then []
    else n :: takeBlock startLevel rest

/-- Case-insensitive prefix test (patterns are given lowercase). -/
def prefixCI : List Char → List Char → Bool
  | [], _ => true
  | _ :: _, [] => false
  | p :: ps, x :: xs => p = x.toLower && prefixCI ps xs

/-- Index of the first case-insensitive occurrence of `pat`. -/
def findCI (pat : List Char) : List Char → Option ℕ
  | [] => if pat = [] then some 0 else none
  | x :: xs => if prefixCI pat (x :: xs) then some 0 else (findCI pat xs).map (· + 1)

/-- Global removal of lazily-matched `open … close` blocks
(`/<script[\s\S]*?<\/script>/gi` and the `style` analogue). `fuel` bounds
the recursion by the input length. -/
def stripBlocksGo (openPat closePat : List Char) : ℕ → List Char → List Char
  | 0, l => l
  | fuel + 1, l =>
    match findCI openPat l with
    | none => l
    | some i =>
      let pre := l.take i
      let rest := l.drop i
      let afterOpen := rest.drop openPat.length
      match findCI closePat afterOpen with
      | none => l
      | some j =>
        pre ++ stripBlocksGo openPat closePat fuel
          (rest.drop (openPat.length + j + closePat.length))

/-- Entry point for block stripping. -/
def stripBlocks (openPat closePat : String) (l : List Char) : List Char :=
  stripBlocksGo openPat.data closePat.data l.length l

/-- The first lazily-matched `open … close` substring
(`s.match(/<article[\s\S]*?<\/article>/i)?.[0]`). -/
def matchFromTo (openPat closePat : String) (s : List Char) : Option (List Char) :=
  match findCI openPat.data s with
  | none => none
  | some i =>
    let rest := s.drop i
    let afterOpen := rest.drop openPat.data.length
    match findCI closePat.data afterOpen with
    | none => none
    | some j => some (rest.take (openPat.data.length + j + closePat.data.length))

/-- Length of a `/<\s*br\s*\/?>/i` match starting here, if any. -/
def matchBrLen (l : List Char) : Option ℕ :=
  match l with
  | '<' :: rest =>
    let ws1 := (rest.takeWhile isJsWs).length
    let r1 := rest.drop ws1
    if prefixCI "br".data r1 then
      let r2 := r1.drop 2
      let ws2 := (r2.takeWhile isJsWs).length
      let r3 := r2.drop ws2
      match r3 with
      | '/' :: '>' :: _ => some (1 + ws1 + 2 + ws2 + 2)
      | '>' :: _ => some (1 + ws1 + 2 + ws2 + 1)
      | _ => none
    else none
  | _ => none

/-- `replace(/<\s*br\s*\/?>/gi, "\n")`. -/
def replaceBrGo : ℕ → List Char → List Char
  | 0, l => l
  | _ + 1, [] => []
  | fuel + 1, x :: xs =>
    match matchBrLen (x :: xs) with
    | some k => '\n' :: replaceBrGo fuel ((x :: xs).drop k)
    | none => x :: replaceBrGo fuel xs

/-- Global case-insensitive literal replacement (`pat` nonempty,
lowercase). -/
def replaceAllCIGo (pat rep : List Char) : ℕ → List Char → List Char
  | 0, l => l
  | _ + 1, [] => []
  | fuel + 1, x :: xs =>
    if prefixCI pat (x :: xs) then rep ++ replaceAllCIGo pat rep fuel ((x :: xs).drop pat.length)
    else x :: replaceAllCIGo pat rep fuel xs

/-- `replace(/<[^>]+>/g, "")`: drop every `<`…`>` span with a nonempty
interior. -/
def stripTagsGo : ℕ → List Char → List Char
  | 0, l => l
  | _ + 1, [] => []
  | fuel + 1, '<' :: xs =>
    (match xs with
     | '>' :: _ => '<' :: stripTagsGo fuel xs
     | _ =>
       let inner := xs.takeWhile (· ≠ '>')
       let rest := xs.drop inner.length
       match rest with
       | '>' :: rest2 => stripTagsGo fuel rest2
       | _ => '<' :: stripTagsGo fuel xs)
  | fuel + 1, x :: xs => x :: stripTagsGo fuel xs

/-- `replace(/\n{3,}/g, "\n\n")`. -/
def condenseGo : ℕ → List Char → List Char
  | 0, l => l
  | _ + 1, [] => []
  | fuel + 1, '\n' :: xs =>
    let run := 1 + (xs.takeWhile (· = '\n')).length
    let rest := xs.drop (run - 1)
    (if run ≥ 3 then ['\n', '\n'] else List.replicate run '\n') ++ condenseGo fuel rest
  | fuel + 1, x :: xs => x :: condenseGo fuel xs

/-- `htmlToText` (src/index.js:390-412): strip `script`/`style` blocks,
prefer the first `<article>`… else `<main>`… substring, turn `<br>` and
`</p>` into newlines, strip the remaining tags, drop carriage returns,
condense blank runs and trim. -/
def htmlToText (html : String) : String :=
  if html = "" then ""
  else
    let s := html.data
    let s := stripBlocks "<script" "</script>" s
    let s := stripBlocks "<style" "</style>" s
    let art := (matchFromTo "<article" "</article>" s).getD
      ((matchFromTo "<main" "</main>" s).getD s)
    let s := replaceBrGo art.length art
    let s := replaceAllCIGo "</p>".data "\n\n".data s.length s
    let s := stripTagsGo s.length s
    let s := s.filter (· ≠ '\r')
    let s := condenseGo s.length s
    jsTrim (String.mk s)

/-- One extracted section (the objects pushed into `sections`,
src/index.js:552-557; the resolved image URL is not modelled — no claim
depends on it). `text` is the section's plain text, whose length the
thresholds test. -/
structure Sec where
  title : String
  excerpt : String
  text : String
  contentMarkdown : String
deriving DecidableEq, Repr

/-- Build a section record from its title and plain text. -/
def mkSec (title text pageUrl : String) : Sec :=
  { title := title
    excerpt := String.mk (text.data.take 600)
    text := text
    contentMarkdown := text ++ "\n\n[Read the original on FPL Mundo](" ++ pageUrl ++ ")" }

/-- `pickTitle` (src/index.js:529-533): text of the first `h1`/`h2`/`h3`
descendant, trimmed, defaulting to `"Review"`. -/
def pickTitle (scopeChildren : List HNode) : String :=
  let t := jsTrim (match (findTagsInForest ["h1", "h2", "h3"] scopeChildren).head? with
    | some h => textContentNode h
    | none => "")
  jsOrStr t "Review"

/-- Strategy (1) (src/index.js:543-560): every `<article>` under the root
whose converted text reaches `minChars` becomes a section; no truncation
happens inside this loop. -/
def articleSections (minChars : ℕ) (pageUrl : String) (arts : List HNode) : List Sec :=
  arts.filterMap fun a =>
    let title := pickTitle (childrenOf a)
    let text := htmlToText (serializeNode a)
    if text ≠ "" ∧ minChars ≤ text.length then some (mkSec title text pageUrl) else none

/-- Strategy (2) (src/index.js:563-599): walk the `h2`/`h3` headers in
document order, give each the sibling block up to the next
equal-or-higher header, keep blocks whose text reaches `minChars`, and
stop once `maxSections` sections exist. The re-parsed block's first
`h2`/`h3` is the header itself, so the section title is the header's
trimmed text. -/
def headingSections (minChars maxSections : ℕ) (pageUrl : String)
    (acc : List Sec) : List (HNode × List HNode) → List Sec
  | [] => acc
  | (h, sibs) :: rest =>
    let blockHtml := serializeNode h ++ serializeForest (takeBlock (headerLevel h) sibs)
    let title := jsOrStr (jsTrim (textContentNode h)) "Review"
    let text := htmlToText blockHtml
    let acc₂ := if text ≠ "" ∧ minChars ≤ text.length then acc ++ [mkSec title text pageUrl]
      else acc
    if maxSections ≤ acc₂.length then acc₂
    else headingSections minChars maxSections pageUrl acc₂ rest

/-- `extractTitleFromHtml` (src/index.js:414-423) at DOM level: the first
nonempty `h1`, else the `<title>` text, else `"Review"` (the `og:title`
meta branch is not modelled — no claim depends on the fallback section's
title). -/
def extractTitleDom (page : HNode) : String :=
  let h1 := (findTagsInForest ["h1"] [page]).head?.map fun h => jsTrim (textContentNode h)
  match h1 with
  | some t => if t = "" then
      (match (findTagsInForest ["title"] [page]).head? with
       | some tn => jsOrStr (jsTrim (textContentNode tn)) "Review"
       | none => "Review")
    else t
  | none =>
    match (findTagsInForest ["title"] [page]).head? with
    | some tn => jsOrStr (jsTrim (textContentNode tn)) "Review"
    | none => "Review"

/-- The content root (src/index.js:527): the first `<main>`, else the
`<body>`, else an empty body (an empty cheerio selection behaves like one
here). -/
def rootOf (page : HNode) : HNode :=
  ((findTagsInForest ["main"] [page]).head?.getD
    ((findTagsInForest ["body"] [page]).head?.getD (HNode.elem "body" [] [])))

/-- Strategies (1) and (2) of `extractSectionsFromHtml`
(src/index.js:540-599): article splitting when at least two `<article>`
elements exist, then heading splitting when fewer than two sections
resulted. -/
def extractStage12 (minChars maxSections : ℕ) (page : HNode) (pageUrl : String) : List Sec :=
  let rootKids := childrenOf (rootOf page)
  let arts := findTagsInForest ["article"] rootKids
  let s₁ := if 2 ≤ arts.length then articleSections minChars pageUrl arts else []
  if s₁.length < 2 then headingSections minChars maxSections pageUrl s₁ (headerBlocks rootKids)
  else s₁

/-- `extractSectionsFromHtml` (src/index.js:525-618): strategies (1)/(2),
then the whole-page fallback (root text of at least **300** characters)
when both produced nothing, truncated to `maxSections`. -/
def extractSectionsFromHtml (minChars maxSections : ℕ) (page : HNode)
    (pageUrl : String) : List Sec :=
  let s₂ := extractStage12 minChars maxSections page pageUrl
  let sections := if s₂ = [] then
      let bigText := htmlToText (serializeNode (rootOf page))
      if bigText ≠ "" ∧ 300 ≤ bigText.length then
        [mkSec (jsOrStr (extractTitleDom page) "Review") bigText pageUrl]
      else []
    else s₂
  sections.take maxSections

/-! ### Concrete instances used by counterexamples and witnesses -/

/-- A canonical standing with nonzero scores. -/
def s₀ : TeamStanding := ⟨1, "A", "B", 5, 7, 3, "W"⟩

/-- A canonical standing with zero scores. -/
def s₁ : TeamStanding := ⟨1, "A", "B", 0, 0, 3, "W"⟩

/-- A raw row carrying an explicit position `7`. -/
def row7 : RawRow := { position := some 7 }

/-- A raw row with no aliases at all. -/
def rowEmpty : RawRow := {}

/-- A small standing used in concrete league tables. -/
def mkT (pos : ℚ) (tm ow : String) : TeamStanding := ⟨pos, tm, ow, 0, 0, 0, ""⟩

/-- Ten teams at positions 1..10, names `t1..t10`, owners `o1..o10`. -/
def teams10 : List TeamStanding :=
  [mkT 1 "t1" "o1", mkT 2 "t2" "o2", mkT 3 "t3" "o3", mkT 4 "t4" "o4", mkT 5 "t5" "o5",
   mkT 6 "t6" "o6", mkT 7 "t7" "o7", mkT 8 "t8" "o8", mkT 9 "t9" "o9", mkT 10 "t10" "o10"]

/-- Six teams at positions 1..6. -/
def teams6 : List TeamStanding :=
  [mkT 1 "t1" "o1", mkT 2 "t2" "o2", mkT 3 "t3" "o3", mkT 4 "t4" "o4", mkT 5 "t5" "o5",
   mkT 6 "t6" "o6"]

/-- The joined-and-scored matchup the single fixture `fx67` produces
against `teams10`. -/
def scored67 : ScoredMatchup :=
  { a := mkT 6 "t6" "o6", b := mkT 7 "t7" "o7"
    score := dramaScore [] none 10 (mkT 6 "t6" "o6") (mkT 7 "t7" "o7")
    riv := none }

/-- The scored matchup `fxAB` produces against `teams6`. -/
def scoredAB : ScoredMatchup :=
  { a := mkT 1 "t1" "o1", b := mkT 2 "t2" "o2"
    score := dramaScore [] none 6 (mkT 1 "t1" "o1") (mkT 2 "t2" "o2")
    riv := none }

/-- The scored matchup `fxBA` produces against `teams6`. -/
def scoredBA : ScoredMatchup :=
  { a := mkT 2 "t2" "o2", b := mkT 1 "t1" "o1"
    score := dramaScore [] none 6 (mkT 2 "t2" "o2") (mkT 1 "t1" "o1")
    riv := none }

/-- A fixture pairing the teams at table positions 6 and 7. -/
def fx67 : RawFixture := { home_team := some "t6", away_team := some "t7" }

/-- A fixture `t1` at home to `t2`. -/
def fxAB : RawFixture := { home_team := some "t1", away_team := some "t2" }

/-- The reversed fixture `t2` at home to `t1`. -/
def fxBA : RawFixture := { home_team := some "t2", away_team := some "t1" }

/-- A confirmed riser `£5.5 → £5.6`. -/
def pHaaland : PriceRow := ⟨"Haaland", "MCI", 55, 56⟩

/-- A confirmed riser `£7.0 → £7.1`. -/
def pSaka : PriceRow := ⟨"Saka", "ARS", 70, 71⟩

/-- A dummy pick used as the default of `List.getD`. -/
def dummyPick : MatchupPick := ⟨(s₁, s₁), "", ""⟩

/-- A GET behaviour: one 503 with `Retry-After: 2`, then success. -/
def ocW : ℕ → Option HttpErr := fun k => if k = 0 then some ⟨some 503, some 2⟩ else none

/-- Zero jitter draws. -/
def jitW : ℕ → ℕ := fun _ => 0

/-- A page whose body is a bare 300-character text run. -/
def page300 : HNode :=
  HNode.elem "html" [] [HNode.elem "body" [] [HNode.textNode (String.mk (List.replicate 300 'a'))]]

/-- Two picks cover the same unordered team pair when their team names
agree in either assignment order. -/
def sameUnorderedPair (x y : MatchupPick) : Prop :=
  (x.pair.1.team = y.pair.1.team ∧ x.pair.2.team = y.pair.2.team) ∨
  (x.pair.1.team = y.pair.2.team ∧ x.pair.2.team = y.pair.1.team)

/-- The drama score the claim describes, with the zone bonus of 20 for
"both teams in the **bottom 4** of the table" (positions `≥ N − 3` when
positions are `1..N`). -/
def dramaScoreSpec (rivalries : List Rivalry) (league : Option String) (nTeams : ℕ)
    (a b : TeamStanding) : ℚ :=
  100 - min 100 |a.h2hPoints - b.h2hPoints| + (a.totalScore + b.totalScore) / 1000 +
    (if a.position ≤ 6 ∧ b.position ≤ 6 then 25 else 0) +
    (if a.position ≥ (nTeams : ℚ) - 3 ∧ b.position ≥ (nTeams : ℚ) - 3 then 20 else 0) +
    (if (rivalryMatches rivalries league a b).isSome then 100 else 0)

/-- The drama score as the code computes it, written in closed form: the
amended claim replaces "bottom 4" by "positions `≥ N − 4`" (the bottom
five slots of a `1..N` table). -/
def dramaScoreAmended (rivalries : List Rivalry) (league : Option String) (nTeams : ℕ)
    (a b : TeamStanding) : ℚ :=
  100 - min 100 |a.h2hPoints - b.h2hPoints| + (a.totalScore + b.totalScore) / 1000 +
    (if a.position ≤ 6 ∧ b.position ≤ 6 then 25 else 0) +
    (if a.position ≥ (nTeams : ℚ) - 4 ∧ b.position ≥ (nTeams : ℚ) - 4 then 20 else 0) +
    (if (rivalryMatches rivalries league a b).isSome then 100 else 0)

/-- The configured times still strictly in the future on the day of
`tzNow` (the `cands` filter of `scheduleAtLocalTimes`). -/
def futureTimes (times : List (ℤ × ℤ)) (tzNow : ℤ) : List (ℤ × ℤ) :=
  times.filter fun t => decide (localTarget tzNow t > tzNow)

/-! ## Theorems -/

/-- C10: every scheduler delay computation — `msUntilNextWeekly`,
`msUntilNextDaily` and the per-call `msUntilNext` of
`scheduleAtLocalTimes` — returns a nonnegative number of milliseconds for
every input, so a timer is never armed with a negative delay. -/
theorem C10_scheduler_delays_nonneg (weekday hour minute now tzNow : ℤ)
    (times : List (ℤ × ℤ)) :
    0 ≤ msUntilNextWeekly weekday hour minute now tzNow ∧
    0 ≤ msUntilNextDaily hour minute now tzNow ∧
    0 ≤ msUntilNextAtLocalTimes times now tzNow := by
  refine ⟨?_, ?_, ?_⟩
  · exact le_max_left 0 _
  · exact le_max_left 0 _
  · exact le_max_left 0 _

/-- `charReplace` distributes over append. -/
theorem charReplace_append (c : Char) (r : List Char) (xs ys : List Char) :
    charReplace c r (xs ++ ys) = charReplace c r xs ++ charReplace c r ys := by
  induction xs with
  | nil => rfl
  | cons x xs ih => simp [charReplace, ih]

/-- The three sequential replacements act on a single character exactly as
`escChar` does. -/
theorem escape_single_char (x : Char) :
    charReplace '\n' "<br/>".data
      (charReplace '<' "&lt;".data
        (charReplace '&' "&amp;".data [x])) = escChar x := by
  by_cases h₁ : x = '&'
  · subst h₁; rfl
  · by_cases h₂ : x = '<'
    · subst h₂; rfl
    · by_cases h₃ : x = '\n'
      · subst h₃; rfl
      · simp [charReplace, escChar, h₁, h₂, h₃]

/-- The sequential replacement pipeline equals the per-character map. -/
theorem escape_pipeline_eq (l : List Char) :
    charReplace '\n' "<br/>".data
      (charReplace '<' "&lt;".data
        (charReplace '&' "&amp;".data l)) = l.flatMap escChar := by
  induction l with
  | nil => rfl
  | cons x xs ih =>
    have hx : (x :: xs) = [x] ++ xs := rfl
    rw [hx, charReplace_append, charReplace_append, charReplace_append,
      escape_single_char, ih]
    simp

/-- C9 (corrected): the envelope actually produced by the text-proxy
fallback: `&` becomes `&amp;`, `<` becomes `&lt;`, every newline becomes
`<br/>`, and `>` is left **unescaped** (the claim's second angle bracket
is never replaced). -/
theorem C9_amended_proxy_envelope (t : String) :
    wrapProxyText t =
      "<html><body><main>" ++ String.mk (t.data.flatMap escChar) ++ "</main></body></html>" ∧
    escChar '>' = ['>'] := by
  constructor
  · unfold wrapProxyText escapeProxyText
    rw [escape_pipeline_eq]
  · rfl

/-- C9 counterexample: on the proxy text `">"` the code's envelope keeps
the raw `>` while the claimed envelope (both angle brackets escaped) turns
it into `&gt;` — the claim is false at this input. -/
theorem C9_cex_gt_unescaped :
    wrapProxyText ">" = "<html><body><main>></main></body></html>" ∧
    wrapProxyTextSpec ">" = "<html><body><main>&gt;</main></body></html>" ∧
    wrapProxyText ">" ≠ wrapProxyTextSpec ">" := by decide

/-- C2 (corrected): the confirmed-price poster suppresses the second of
two consecutive invocations only when the rows arrive in the **same
order**: its signature is order-sensitive. A repeat observation of the
identical `chg` value never posts twice. -/
theorem C2_amended_same_order_suppressed (lastSig : String) (chg : PriceChanges) :
    (postConfirmedStep (postConfirmedStep lastSig chg).1 chg).2 = false ∧
    postsOverTwo lastSig chg chg ≤ 1 := by
  have h₂ : (postConfirmedStep (postConfirmedStep lastSig chg).1 chg).2 = false := by
    unfold postConfirmedStep
    by_cases h : confSig chg = "" ∨ confSig chg = lastSig
    · simp [h]
    · simp [h]
  refine ⟨h₂, ?_⟩
  show (if (postConfirmedStep lastSig chg).2 then 1 else 0) +
    (if (postConfirmedStep (postConfirmedStep lastSig chg).1 chg).2 then 1 else 0) ≤ 1
  rw [h₂]
  by_cases h : (postConfirmedStep lastSig chg).2 <;> simp [h]

/-- C2 counterexample: two consecutive confirmed-price invocations that
observe the **same set** of risers in reversed internal order produce two
outbound posts, because the signature is built from the rows in incoming
order (no sorting, no deduplication). -/
theorem C2_cex_reordered_rows_post_twice :
    ([pHaaland, pSaka] : List PriceRow).Perm [pSaka, pHaaland] ∧
    postsOverTwo "" ⟨[pHaaland, pSaka], []⟩ ⟨[pSaka, pHaaland], []⟩ = 2 := by decide

/-- The candidate construction of `scheduleAtLocalTimes` is the image of
the future-times filter. -/
theorem cands_eq_futureTimes (times : List (ℤ × ℤ)) (tzNow offset : ℤ) :
    (times.filterMap fun t =>
      if localTarget tzNow t > tzNow then some (localTarget tzNow t - offset) else none) =
    (futureTimes times tzNow).map fun t => localTarget tzNow t - offset := by
  induction times with
  | nil => rfl
  | cons t ts ih =>
    by_cases h : localTarget tzNow t > tzNow <;>
      simp [futureTimes, List.filterMap_cons, List.filter_cons, h, ih]

/-- Folding `min` over a constant-shifted list shifts the result. -/
theorem foldl_min_map_sub (ys : List ℤ) (x c : ℤ) :
    (ys.map fun v => v - c).foldl min (x - c) = ys.foldl min x - c := by
  induction ys generalizing x with
  | nil => rfl
  | cons y ys ih =>
    simp only [List.map_cons, List.foldl_cons]
    rw [min_sub_sub_right x y c]
    exact ih (min x y)

/-- `List.min?` commutes with subtracting a constant. -/
theorem min?_map_sub (l : List ℤ) (c : ℤ) :
    (l.map fun x => x - c).min? = l.min?.map fun x => x - c := by
  cases l with
  | nil => rfl
  | cons x xs =>
    show some ((xs.map fun v => v - c).foldl min (x - c)) = (some (xs.foldl min x)).map fun v => v - c
    rw [foldl_min_map_sub xs x c]
    rfl

/-- C6 (corrected): the per-call delay of `scheduleAtLocalTimes` fires at
the **earliest configured time still in the future today** when one
exists; when none remains, it falls back to `times[0]` — the *first*
configured time of the list — tomorrow, not the earliest configured
time. -/
theorem C6_amended_next_local_time (times : List (ℤ × ℤ)) (now tzNow : ℤ) :
    (futureTimes times tzNow ≠ [] →
      msUntilNextAtLocalTimes times now tzNow =
        max 0 (((futureTimes times tzNow).map (localTarget tzNow)).min?.getD 0
          - (tzNow - now) - now)) ∧
    (futureTimes times tzNow = [] →
      msUntilNextAtLocalTimes times now tzNow =
        max 0 (localTarget tzNow (times.head?.getD (0, 0)) + msDay - (tzNow - now) - now)) := by
  constructor
  · intro hne
    simp only [msUntilNextAtLocalTimes, cands_eq_futureTimes times tzNow (tzNow - now)]
    have hmapne : ((futureTimes times tzNow).map fun t =>
        localTarget tzNow t - (tzNow - now)) ≠ [] := by
      simpa using hne
    rw [if_neg hmapne]
    have hcomp : ((futureTimes times tzNow).map fun t => localTarget tzNow t - (tzNow - now)) =
        ((futureTimes times tzNow).map (localTarget tzNow)).map fun x => x - (tzNow - now) := by
      rw [List.map_map]; rfl
    rw [hcomp, min?_map_sub]
    obtain ⟨m, hm⟩ : ∃ m, ((futureTimes times tzNow).map (localTarget tzNow)).min? = some m := by
      cases hmin : ((futureTimes times tzNow).map (localTarget tzNow)).min? with
      | none =>
        rw [List.min?_eq_none_iff] at hmin
        exact absurd (by simpa using hmin) hne
      | some m => exact ⟨m, rfl⟩
    rw [hm]
    simp
  · intro hnil
    simp only [msUntilNextAtLocalTimes, cands_eq_futureTimes times tzNow (tzNow - now), hnil]
    have hsingle : ([localTarget tzNow (times.head?.getD (0, 0)) + msDay - (tzNow - now)]).min?.getD 0
        = localTarget tzNow (times.head?.getD (0, 0)) + msDay - (tzNow - now) := rfl
    simp [hsingle]

/-- C6 witness: with the single configured time 15:00 and a 10:00 wall
clock, a future candidate exists and the computed delay is the claimed
earliest-future-today delay. -/
theorem C6_witness :
    futureTimes [((15 : ℤ), (0 : ℤ))] (10 * msHour) ≠ [] ∧
    msUntilNextAtLocalTimes [(15, 0)] (10 * msHour) (10 * msHour) =
      max 0 ((([((15 : ℤ), (0 : ℤ))].filter fun t =>
          decide (localTarget (10 * msHour) t > 10 * msHour)).map
            (localTarget (10 * msHour))).min?.getD 0
        - (10 * msHour - 10 * msHour) - 10 * msHour) :=
  ⟨by decide, (C6_amended_next_local_time [(15, 0)] (10 * msHour) (10 * msHour)).1 (by decide)⟩

/-- C6 counterexample: with configured times `["15:00", "08:00"]` (not
sorted ascending) and a 20:00 wall clock, no time remains today; the code
schedules 15:00 tomorrow (19 h away) whereas the claim's
earliest-configured-time-tomorrow rule gives 08:00 tomorrow (12 h away). -/
theorem C6_cex_first_not_earliest :
    msUntilNextAtLocalTimes [(15, 0), (8, 0)] (20 * msHour) (20 * msHour) = 68400000 ∧
    msUntilNextAtLocalTimesSpec [(15, 0), (8, 0)] (20 * msHour) (20 * msHour) = 43200000 ∧
    (68400000 : ℤ) ≠ 43200000 := by decide

/-- Re-normalising a canonical row keeps `position`/`team`/`owner`/`value`/
`recent` and zeroes the two score fields (their canonical names are not in
the alias lists). -/
theorem normalizeRow_rawOfStanding (i : ℕ) (s : TeamStanding) :
    normalizeRow i (rawOfStanding s) = zeroScores s := rfl

/-- Mapping the normaliser body over re-fed canonical rows zeroes scores
row-wise, independently of the enumeration offset. -/
theorem enumFrom_map_rawOfStanding (l : List TeamStanding) (n : ℕ) :
    ((l.map rawOfStanding).enumFrom n).map (fun p => normalizeRow p.1 p.2) =
      l.map zeroScores := by
  induction l generalizing n with
  | nil => rfl
  | cons s rest ih =>
    simp only [List.map_cons, List.enumFrom]
    rw [normalizeRow_rawOfStanding n s, ih (n + 1)]

/-- A list whose positions read `1..N` is pairwise nondecreasing in
`position`. -/
theorem pairwise_le_of_contiguous (l : List TeamStanding)
    (h : (l.map fun s => s.position) = (List.range l.length).map fun i : ℕ => (i : ℚ) + 1) :
    l.Pairwise fun a b => a.position ≤ b.position := by
  have hpw : (l.map fun s => s.position).Pairwise (· ≤ ·) := by
    rw [h]
    refine List.Pairwise.map _ ?_ (List.pairwise_lt_range l.length)
    intro a b hab
    have : (a : ℚ) < (b : ℚ) := by exact_mod_cast hab
    linarith
  exact (List.pairwise_map).1 hpw

/-- C1 (corrected): `normalizeTeams` applied to its own canonical output
(positions `1..N`) keeps `position`, `team`, `owner`, `value` and `recent`
and keeps the row order, but **resets `totalScore` and `h2hPoints` to 0**
(the alias lists do not contain the output's own field names); it is the
identity exactly on canonical rows whose two score fields are already 0. -/
theorem C1_amended_normalize_roundtrip (l : List TeamStanding)
    (h : (l.map fun s => s.position) = (List.range l.length).map fun i : ℕ => (i : ℚ) + 1) :
    normalizeTeams (l.map rawOfStanding) = l.map zeroScores ∧
    ((∀ s ∈ l, s.totalScore = 0 ∧ s.h2hPoints = 0) →
      normalizeTeams (l.map rawOfStanding) = l) := by
  have hpz : (l.map zeroScores).Pairwise
      fun a b => (fun a b => decide (a.position ≤ b.position)) a b = true := by
    have := pairwise_le_of_contiguous l h
    have hz : (l.map zeroScores).Pairwise fun a b => a.position ≤ b.position := by
      rw [List.pairwise_map]
      exact this
    exact hz.imp fun hab => decide_eq_true hab
  have hmain : normalizeTeams (l.map rawOfStanding) = l.map zeroScores := by
    unfold normalizeTeams
    rw [show List.enum (l.map rawOfStanding) = List.enumFrom 0 (l.map rawOfStanding) from rfl,
      enumFrom_map_rawOfStanding l 0]
    exact List.mergeSort_of_sorted hpz
  refine ⟨hmain, fun hz => ?_⟩
  rw [hmain]
  have hid : ∀ s ∈ l, zeroScores s = s := by
    intro s hs
    obtain ⟨h₁, h₂⟩ := hz s hs
    cases s
    simp_all [zeroScores]
  rw [List.map_congr_left hid]
  exact List.map_id l

/-- C1 witness: a one-row canonical table with zero scores round-trips
unchanged. -/
theorem C1_witness :
    (([s₁].map fun s => s.position) = (List.range 1).map fun i : ℕ => (i : ℚ) + 1) ∧
    normalizeTeams ([s₁].map rawOfStanding) = [s₁] := by
  have h : ([s₁].map fun s => s.position) = (List.range 1).map fun i : ℕ => (i : ℚ) + 1 := by
    norm_num [s₁, List.range_succ]
  exact ⟨h, (C1_amended_normalize_roundtrip [s₁] h).2 (by decide)⟩

/-- C1 counterexample: a canonical row with `totalScore = 5`,
`h2hPoints = 7` does **not** survive re-normalisation — both scores come
back 0, so the normaliser is not the identity on its own output. -/
theorem C1_cex_scores_zeroed : normalizeTeams [rawOfStanding s₀] ≠ [s₀] := by
  intro heq
  have h : normalizeTeams [rawOfStanding s₀] = [zeroScores s₀] := by
    unfold normalizeTeams
    exact List.mergeSort_of_sorted (by simp)
  rw [h] at heq
  exact absurd heq (by decide)

/-- Positions assigned by the normaliser body when no position alias is
present: `index + 1`, regardless of enumeration offset. -/
theorem enumFrom_positions_noalias (rows : List RawRow)
    (h : ∀ r ∈ rows, r.capPosition = none ∧ r.position = none ∧ r.rank = none) :
    ∀ n, (((rows.enumFrom n).map fun p => normalizeRow p.1 p.2).map fun t => t.position) =
      (List.range rows.length).map fun i : ℕ => ((n : ℚ) + (i : ℚ)) + 1 := by
  induction rows with
  | nil => intro n; rfl
  | cons r rest ih =>
    intro n
    obtain ⟨h₁, h₂, h₃⟩ := h r (List.mem_cons_self r rest)
    have hrest := fun r' hr' => h r' (List.mem_cons_of_mem r hr')
    simp only [List.enumFrom, List.map_cons, List.length_cons]
    rw [List.range_succ_eq_map]
    simp only [List.map_cons]
    rw [List.cons.injEq]
    refine ⟨?_, ?_⟩
    · simp [normalizeRow, h₁, h₂, h₃, firstSome]
    · rw [ih hrest (n + 1), List.map_map]
      refine List.map_congr_left fun i _ => ?_
      simp only [Function.comp]
      push_cast
      ring

/-- C5 (corrected): `normalizeTeams` does not renumber rows — positions
come from the data when any alias is present — but when **no** row carries
a `Position`/`position`/`rank` alias the positions default to the row
index + 1, and the output positions are exactly `1..N`, unique, contiguous
and strictly ascending. -/
theorem C5_amended_positions (rows : List RawRow)
    (h : ∀ r ∈ rows, r.capPosition = none ∧ r.position = none ∧ r.rank = none) :
    ((normalizeTeams rows).map fun t => t.position) =
      ((List.range rows.length).map fun i : ℕ => (i : ℚ) + 1) ∧
    ((normalizeTeams rows).map fun t => t.position).Pairwise (· < ·) := by
  have hpos : ((rows.enum.map fun p => normalizeRow p.1 p.2).map fun t => t.position) =
      (List.range rows.length).map fun i : ℕ => (i : ℚ) + 1 := by
    rw [show rows.enum = rows.enumFrom 0 from rfl, enumFrom_positions_noalias rows h 0]
    refine List.map_congr_left fun i _ => ?_
    push_cast
    ring
  have hpw : (rows.enum.map fun p => normalizeRow p.1 p.2).Pairwise
      fun a b => (fun a b => decide (a.position ≤ b.position)) a b = true := by
    have hle : ((rows.enum.map fun p => normalizeRow p.1 p.2).map fun t => t.position).Pairwise
        (· ≤ ·) := by
      rw [hpos]
      refine List.Pairwise.map _ ?_ (List.pairwise_lt_range rows.length)
      intro a b hab
      have : (a : ℚ) < (b : ℚ) := by exact_mod_cast hab
      linarith
    exact ((List.pairwise_map).1 hle).imp fun hab => decide_eq_true hab
  have hsort : normalizeTeams rows = rows.enum.map fun p => normalizeRow p.1 p.2 := by
    unfold normalizeTeams
    exact List.mergeSort_of_sorted hpw
  refine ⟨by rw [hsort, hpos], ?_⟩
  rw [hsort, hpos]
  refine List.Pairwise.map _ ?_ (List.pairwise_lt_range rows.length)
  intro a b hab
  have : (a : ℚ) < (b : ℚ) := by exact_mod_cast hab
  linarith

/-- C5 witness: two alias-free rows come out at positions `[1, 2]`. -/
theorem C5_witness :
    (∀ r ∈ [rowEmpty, rowEmpty], r.capPosition = none ∧ r.position = none ∧ r.rank = none) ∧
    ((normalizeTeams [rowEmpty, rowEmpty]).map fun t => t.position) =
      ((List.range 2).map fun i : ℕ => (i : ℚ) + 1) :=
  ⟨by decide, (C5_amended_positions [rowEmpty, rowEmpty] (by decide)).1⟩

/-- C5 counterexample: two raw rows both carrying explicit position `7`
normalise to positions `[7, 7]` — neither unique nor contiguous from 1. -/
theorem C5_cex_duplicate_positions :
    ((normalizeTeams [row7, row7]).map fun t => t.position) = [7, 7] ∧
    ¬ ((normalizeTeams [row7, row7]).map fun t => t.position).Nodup := by
  have h : normalizeTeams [row7, row7] =
      [normalizeRow 0 row7, normalizeRow 1 row7] := by
    unfold normalizeTeams
    exact List.mergeSort_of_sorted (by decide)
  rw [h]
  refine ⟨by decide, by decide⟩

/-- `rivalryMatches` over an empty rivalry list finds nothing. -/
theorem rivalryMatches_nil (lg : Option String) (a b : TeamStanding) :
    rivalryMatches [] lg a b = none := rfl

/-- C4 (corrected): the per-matchup drama score of the fixtures path equals
`100 − min(100, |h2hGap|) + (totalScore sum)/1000 + 25·[both ≤ 6] +
20·[both ≥ N − 4] + 100·[rivalry matches either order]` — the 20-point
"relegation" bonus covers positions `≥ N − 4`, i.e. the bottom **five**
slots of a `1..N` table, not the bottom four; and every scored fixture in
the pipeline carries exactly this value. -/
theorem C4_amended_drama_score (rivalries : List Rivalry) (league : Option String) :
    (∀ (nTeams : ℕ) (a b : TeamStanding),
      dramaScore rivalries league nTeams a b = dramaScoreAmended rivalries league nTeams a b) ∧
    (∀ (teams : List TeamStanding) (fixtures : List RawFixture),
      ∀ s ∈ scoreFixtures rivalries league teams fixtures,
        s.score = dramaScoreAmended rivalries league teams.length s.a s.b) := by
  have hform : ∀ (nTeams : ℕ) (a b : TeamStanding),
      dramaScore rivalries league nTeams a b = dramaScoreAmended rivalries league nTeams a b := by
    intro nTeams a b
    simp only [dramaScore, dramaScoreAmended]
    split_ifs <;> ring
  refine ⟨hform, ?_⟩
  intro teams fixtures s hs
  unfold scoreFixtures at hs
  rw [List.mem_filterMap] at hs
  obtain ⟨fx, -, heq⟩ := hs
  dsimp only at heq
  split at heq
  · rename_i a b ha hb
    rw [Option.some.injEq] at heq
    subst heq
    exact hform teams.length a b
  · exact Option.noConfusion heq

/-- C4 witness: the matchup joined from `fx67` against the ten-team table
satisfies the amended score formula. -/
theorem C4_witness :
    scored67 ∈ scoreFixtures [] none teams10 [fx67] ∧
    scored67.score = dramaScoreAmended [] none teams10.length scored67.a scored67.b := by
  have hmem : scored67 ∈ scoreFixtures [] none teams10 [fx67] := by
    rw [show scoreFixtures [] none teams10 [fx67] = [scored67] from rfl]
    exact List.mem_singleton_self scored67
  exact ⟨hmem, (C4_amended_drama_score [] none).2 teams10 [fx67] scored67 hmem⟩

/-- C4 counterexample: ten teams, all scores zero, one fixture pairing the
teams at positions 6 and 7. The code scores it `120` (both positions are
`≥ 10 − 4 = 6`, so the 20-point bonus fires), while the claim's formula —
bonus only when both teams are in the bottom **four** — yields `100`. -/
theorem C4_cex_bottom_five_not_four :
    ((scoreFixtures [] none teams10 [fx67]).map fun s => s.score) = [120] ∧
    dramaScoreSpec [] none 10 (mkT 6 "t6" "o6") (mkT 7 "t7" "o7") = 100 ∧
    (120 : ℚ) ≠ 100 := by
  have hcode : dramaScore [] none 10 (mkT 6 "t6" "o6") (mkT 7 "t7" "o7") = 120 := by
    simp only [dramaScore, rivalryMatches_nil, Option.isSome_none, Bool.false_eq_true,
      if_false, mkT]
    norm_num
  have hspec : dramaScoreSpec [] none 10 (mkT 6 "t6" "o6") (mkT 7 "t7" "o7") = 100 := by
    simp only [dramaScoreSpec, rivalryMatches_nil, Option.isSome_none, Bool.false_eq_true,
      if_false, mkT]
    norm_num
  refine ⟨?_, hspec, by norm_num⟩
  rw [show ((scoreFixtures [] none teams10 [fx67]).map fun s => s.score) =
    [dramaScore [] none 10 (mkT 6 "t6" "o6") (mkT 7 "t7" "o7")] from rfl, hcode]

/-- When the loop counter is still below 3, the greedy selection makes at
most `3 − n` further picks. -/
theorem greedyPicks_length_le (t : ℕ) :
    ∀ (l : List ScoredMatchup) (used : List String) (n : ℕ), n < 3 →
      (greedyPicks t used n l).length ≤ 3 - n := by
  intro l
  induction l with
  | nil => intro used n _; simp [greedyPicks]
  | cons s rest ih =>
    intro used n hn
    simp only [greedyPicks]
    by_cases hk : (s.a.team ++ "|" ++ s.b.team) ∈ used
    · rw [if_pos hk]
      exact ih used n hn
    · rw [if_neg hk]
      by_cases h3 : n + 1 ≥ 3
      · rw [if_pos h3]
        simp
        omega
      · rw [if_neg h3]
        have := ih ((s.a.team ++ "|" ++ s.b.team) :: used) (n + 1) (by omega)
        simp only [List.length_cons]
        omega

/-- The greedy selection never reuses an **ordered** `a.team|b.team` key:
the key list of its output is duplicate-free and disjoint from `used`. -/
theorem greedyPicks_keys_nodup (t : ℕ) :
    ∀ (l : List ScoredMatchup) (used : List String) (n : ℕ),
      ((greedyPicks t used n l).map fun p => p.pair.1.team ++ "|" ++ p.pair.2.team).Nodup ∧
      ∀ k ∈ (greedyPicks t used n l).map fun p => p.pair.1.team ++ "|" ++ p.pair.2.team,
        k ∉ used := by
  intro l
  induction l with
  | nil => intro used n; simp [greedyPicks]
  | cons s rest ih =>
    intro used n
    simp only [greedyPicks]
    by_cases hk : (s.a.team ++ "|" ++ s.b.team) ∈ used
    · rw [if_pos hk]
      exact ih used n
    · rw [if_neg hk]
      by_cases h3 : n + 1 ≥ 3
      · rw [if_pos h3]
        refine ⟨by simp, ?_⟩
        intro k hkmem
        simp only [List.map_cons, List.map_nil, List.mem_singleton] at hkmem
        subst hkmem
        exact hk
      · rw [if_neg h3]
        obtain ⟨hnd, hdisj⟩ := ih ((s.a.team ++ "|" ++ s.b.team) :: used) (n + 1)
        simp only [List.map_cons, List.nodup_cons]
        refine ⟨⟨?_, hnd⟩, ?_⟩
        · intro hmem
          exact (hdisj _ hmem) (List.mem_cons_self _ _)
        · intro k hkmem
          rcases List.mem_cons.1 hkmem with hkey | htail
          · subst hkey; exact hk
          · intro hku
            exact (hdisj k htail) (List.mem_cons_of_mem _ hku)

/-- C8 (corrected): the fixtures-path selection returns at most 3 picks and
never repeats an **ordered** team-name key `a.team + "|" + b.team`; the
deduplication is by ordered pair, so the same unordered pair can appear in
both orders. -/
theorem C8_amended_greedy_selection (rivalries : List Rivalry) (league : Option String)
    (teams : List TeamStanding) (fixtures : List RawFixture) :
    (selectDramaticMatchupsFixtures rivalries league teams fixtures).length ≤ 3 ∧
    ((selectDramaticMatchupsFixtures rivalries league teams fixtures).map
      fun p => p.pair.1.team ++ "|" ++ p.pair.2.team).Nodup := by
  unfold selectDramaticMatchupsFixtures
  by_cases h6 : teams.length < 6
  · rw [if_pos h6]
    exact ⟨by simp, by simp⟩
  · rw [if_neg h6]
    exact ⟨greedyPicks_length_le teams.length _ [] 0 (by omega),
      (greedyPicks_keys_nodup teams.length _ [] 0).1⟩

/-- C8 counterexample: with six teams and the two fixtures `t1 vs t2` and
`t2 vs t1`, both joined matchups survive the greedy deduplication (their
ordered keys `"t1|t2"` and `"t2|t1"` differ), so the returned picks
contain the same unordered team pair twice. -/
theorem C8_cex_reversed_pair_kept :
    ((selectDramaticMatchupsFixtures [] none teams6 [fxAB, fxBA]).map
      fun p => (p.pair.1.team, p.pair.2.team)) = [("t1", "t2"), ("t2", "t1")] ∧
    sameUnorderedPair
      ((selectDramaticMatchupsFixtures [] none teams6 [fxAB, fxBA]).getD 0 dummyPick)
      ((selectDramaticMatchupsFixtures [] none teams6 [fxAB, fxBA]).getD 1 dummyPick) := by
  have hAB : dramaScore [] none 6 (mkT 1 "t1" "o1") (mkT 2 "t2" "o2") = 125 := by
    simp only [dramaScore, rivalryMatches_nil, Option.isSome_none, Bool.false_eq_true,
      if_false, mkT]
    norm_num
  have hBA : dramaScore [] none 6 (mkT 2 "t2" "o2") (mkT 1 "t1" "o1") = 125 := by
    simp only [dramaScore, rivalryMatches_nil, Option.isSome_none, Bool.false_eq_true,
      if_false, mkT]
    norm_num
  have hsort : List.mergeSort [scoredAB, scoredBA]
      (fun x y => decide (y.score ≤ x.score)) = [scoredAB, scoredBA] := by
    refine List.mergeSort_of_sorted ?_
    refine List.pairwise_cons.2 ⟨?_, List.pairwise_singleton _ _⟩
    intro b hb
    rw [List.mem_singleton] at hb
    subst hb
    have : scoredBA.score ≤ scoredAB.score := by
      show dramaScore [] none 6 (mkT 2 "t2" "o2") (mkT 1 "t1" "o1") ≤
        dramaScore [] none 6 (mkT 1 "t1" "o1") (mkT 2 "t2" "o2")
      rw [hAB, hBA]
    exact decide_eq_true this
  have hpicks : selectDramaticMatchupsFixtures [] none teams6 [fxAB, fxBA] =
      greedyPicks 6 [] 0 [scoredAB, scoredBA] := by
    rw [show selectDramaticMatchupsFixtures [] none teams6 [fxAB, fxBA] =
      greedyPicks 6 [] 0 (List.mergeSort [scoredAB, scoredBA]
        fun x y => decide (y.score ≤ x.score)) from rfl, hsort]
  rw [hpicks]
  exact ⟨rfl, Or.inr ⟨rfl, rfl⟩⟩

/-- The retry loop performs at most `fuel` attempts. -/
theorem retryFrom_attempts_le (m : ℕ) (b : ℚ) (oc : ℕ → Option HttpErr) (jit : ℕ → ℕ) :
    ∀ fuel attempt, (retryFrom m b oc jit fuel attempt).attempts ≤ fuel := by
  intro fuel
  induction fuel with
  | zero => intro attempt; simp [retryFrom]
  | succ f ih =>
    intro attempt
    simp only [retryFrom]
    cases oc attempt with
    | none => simp
    | some e =>
      dsimp only
      by_cases h : attempt < m ∧ retryableErr e = true
      · rw [if_pos h]
        simpa using ih (attempt + 1)
      · rw [if_neg h]
        simp

/-- Every recorded delay is the computed backoff for the attempt it
follows. -/
theorem retryFrom_delays_spec (m : ℕ) (b : ℚ) (oc : ℕ → Option HttpErr) (jit : ℕ → ℕ) :
    ∀ fuel attempt i, i < (retryFrom m b oc jit fuel attempt).delays.length →
      ∃ e, oc (attempt + i) = some e ∧
        (retryFrom m b oc jit fuel attempt).delays.getD i 0 =
          retryDelay b (attempt + i) e (jit (attempt + i)) := by
  intro fuel
  induction fuel with
  | zero => intro attempt i h; simp [retryFrom] at h
  | succ f ih =>
    intro attempt i h
    rw [show retryFrom m b oc jit (f + 1) attempt = (match oc attempt with
      | none => { attempts := 1, delays := [], success := true }
      | some e =>
        if attempt < m ∧ retryableErr e = true then
          { attempts := (retryFrom m b oc jit f (attempt + 1)).attempts + 1
            delays := retryDelay b attempt e (jit attempt) ::
              (retryFrom m b oc jit f (attempt + 1)).delays
            success := (retryFrom m b oc jit f (attempt + 1)).success }
        else { attempts := 1, delays := [], success := false } : RetryRun) from rfl] at h ⊢
    cases hoc : oc attempt with
    | none =>
      rw [hoc] at h
      simp at h
    | some e =>
      rw [hoc] at h
      dsimp only at h ⊢
      by_cases hcond : attempt < m ∧ retryableErr e = true
      · rw [if_pos hcond] at h
        simp only [if_pos hcond]
        cases i with
        | zero => exact ⟨e, by simpa using hoc, rfl⟩
        | succ i' =>
          obtain ⟨e', he', hd⟩ := ih (attempt + 1) i' (by simpa using h)
          refine ⟨e', ?_, ?_⟩
          · rw [show attempt + (i' + 1) = attempt + 1 + i' by omega]
            exact he'
          · rw [List.getD_cons_succ, hd, show attempt + (i' + 1) = attempt + 1 + i' by omega]
      · rw [if_neg hcond] at h
        simp at h

/-- The computed delay is at least the exponential-backoff base. -/
theorem retryDelay_ge_base (b : ℚ) (k : ℕ) (e : HttpErr) (j : ℕ) :
    b * 2 ^ k ≤ retryDelay b k e j := by
  simp only [retryDelay]
  have hj : (0 : ℚ) ≤ (j : ℚ) := by positivity
  cases e.retryAfter with
  | none =>
    show b * 2 ^ k ≤ b * 2 ^ k + (j : ℚ)
    linarith
  | some sec =>
    show b * 2 ^ k ≤ (if 0 < sec then max (b * 2 ^ k) (sec * 1000) else b * 2 ^ k) + (j : ℚ)
    by_cases hpos : 0 < sec
    · rw [if_pos hpos]
      have := le_max_left (b * 2 ^ k) (sec * 1000)
      linarith
    · rw [if_neg hpos]
      linarith

/-- The computed delay honours a numeric `Retry-After` header. -/
theorem retryDelay_ge_retryAfter (b : ℚ) (hb : 0 ≤ b) (k : ℕ) (e : HttpErr) (j : ℕ)
    (sec : ℚ) (h : e.retryAfter = some sec) : sec * 1000 ≤ retryDelay b k e j := by
  simp only [retryDelay, h]
  have hj : (0 : ℚ) ≤ (j : ℚ) := by positivity
  show sec * 1000 ≤ (if 0 < sec then max (b * 2 ^ k) (sec * 1000) else b * 2 ^ k) + (j : ℚ)
  by_cases hpos : 0 < sec
  · rw [if_pos hpos]
    have := le_max_right (b * 2 ^ k) (sec * 1000)
    linarith
  · rw [if_neg hpos]
    have hsec : sec ≤ 0 := le_of_not_lt hpos
    have hbk : (0 : ℚ) ≤ b * 2 ^ k := by positivity
    nlinarith

/-- A 4xx status other than 429 is not retryable. -/
theorem retryableErr_4xx_false (e : HttpErr) (c : ℕ) (h : e.status = some c)
    (h₁ : 400 ≤ c) (h₂ : c ≤ 499) (h₃ : c ≠ 429) : retryableErr e = false := by
  simp only [retryableErr, h, Bool.or_eq_false_iff, beq_eq_false_iff_ne]
  omega

/-- After a non-retryable failure at attempt `j`, the loop stops: no delay
past index `j − attempt`, at most `j − attempt + 1` attempts. -/
theorem retryFrom_stop (m : ℕ) (b : ℚ) (oc : ℕ → Option HttpErr) (jit : ℕ → ℕ)
    (j : ℕ) (e : HttpErr) (hj : oc j = some e) (hnr : retryableErr e = false) :
    ∀ fuel attempt, attempt ≤ j →
      (retryFrom m b oc jit fuel attempt).delays.length ≤ j - attempt ∧
      (retryFrom m b oc jit fuel attempt).attempts ≤ j - attempt + 1 := by
  intro fuel
  induction fuel with
  | zero => intro attempt _; simp [retryFrom]
  | succ f ih =>
    intro attempt hle
    simp only [retryFrom]
    by_cases heq : attempt = j
    · subst heq
      rw [hj]
      dsimp only
      have hno : ¬ (attempt < m ∧ retryableErr e = true) := by
        rintro ⟨-, hr⟩
        rw [hnr] at hr
        exact Bool.false_ne_true hr
      rw [if_neg hno]
      simp
    · have hlt : attempt < j := lt_of_le_of_ne hle heq
      cases oc attempt with
      | none =>
        dsimp only
        refine ⟨by simp, ?_⟩
        show 1 ≤ j - attempt + 1
        omega
      | some e' =>
        dsimp only
        by_cases hcond : attempt < m ∧ retryableErr e' = true
        · rw [if_pos hcond]
          obtain ⟨hd, ha⟩ := ih (attempt + 1) (by omega)
          refine ⟨?_, ?_⟩
          · show (retryDelay b attempt e' (jit attempt) ::
              (retryFrom m b oc jit f (attempt + 1)).delays).length ≤ j - attempt
            simp only [List.length_cons]
            omega
          · show (retryFrom m b oc jit f (attempt + 1)).attempts + 1 ≤ j - attempt + 1
            omega
        · rw [if_neg hcond]
          refine ⟨by simp, ?_⟩
          show 1 ≤ j - attempt + 1
          omega

/-- C7 (confirmed): `getWithRetries` makes at most `MAX_RETRIES` extra
attempts beyond the first; the delay before retry `k` (0-indexed `i = k−1`)
is at least `BASE_DELAY_MS · 2^(k−1)` plus nonnegative jitter and at least
any numeric `Retry-After` value in seconds times 1000; and a non-retryable
4xx status (anything in 400..499 except 429) stops the loop with no
further retry. -/
theorem C7_retry_contract (maxRetries : ℕ) (baseDelay : ℚ) (oc : ℕ → Option HttpErr)
    (jit : ℕ → ℕ) (hb : 0 ≤ baseDelay) :
    (getWithRetries maxRetries baseDelay oc jit).attempts ≤ maxRetries + 1 ∧
    (∀ i, i < (getWithRetries maxRetries baseDelay oc jit).delays.length →
      baseDelay * 2 ^ i ≤ (getWithRetries maxRetries baseDelay oc jit).delays.getD i 0 ∧
      ∀ e sec, oc i = some e → e.retryAfter = some sec →
        sec * 1000 ≤ (getWithRetries maxRetries baseDelay oc jit).delays.getD i 0) ∧
    (∀ j e, oc j = some e →
      (∃ c, e.status = some c ∧ 400 ≤ c ∧ c ≤ 499 ∧ c ≠ 429) →
      (getWithRetries maxRetries baseDelay oc jit).attempts ≤ j + 1 ∧
      (getWithRetries maxRetries baseDelay oc jit).delays.length ≤ j) := by
  refine ⟨retryFrom_attempts_le maxRetries baseDelay oc jit (maxRetries + 1) 0, ?_, ?_⟩
  · intro i hi
    obtain ⟨e, he, hd⟩ :=
      retryFrom_delays_spec maxRetries baseDelay oc jit (maxRetries + 1) 0 i hi
    rw [Nat.zero_add] at he hd
    constructor
    · rw [show (getWithRetries maxRetries baseDelay oc jit).delays.getD i 0 =
        retryDelay baseDelay i e (jit i) from hd]
      exact retryDelay_ge_base baseDelay i e (jit i)
    · intro e' sec he' hsec
      rw [he] at he'
      cases he'
      rw [show (getWithRetries maxRetries baseDelay oc jit).delays.getD i 0 =
        retryDelay baseDelay i e (jit i) from hd]
      exact retryDelay_ge_retryAfter baseDelay hb i e (jit i) sec hsec
  · intro j e hj hex
    obtain ⟨c, hc, h₁, h₂, h₃⟩ := hex
    have hnr := retryableErr_4xx_false e c hc h₁ h₂ h₃
    obtain ⟨hd, ha⟩ := retryFrom_stop maxRetries baseDelay oc jit j e hj hnr (maxRetries + 1) 0
      (Nat.zero_le j)
    exact ⟨by simpa using ha, by simpa using hd⟩

/-- C7 witness: the default configuration (`maxRetries = 4`,
`baseDelay = 350`) against a single 503-then-success behaviour makes at
most five attempts. -/
theorem C7_witness :
    (0 : ℚ) ≤ 350 ∧ (getWithRetries 4 350 ocW jitW).attempts ≤ 5 :=
  ⟨by norm_num, (C7_retry_contract 4 350 ocW jitW (by norm_num)).1⟩

/-- The section constructor stores the given plain text. -/
theorem mkSec_text (title text pageUrl : String) : (mkSec title text pageUrl).text = text := rfl

/-- Article-split sections always satisfy the minimum length. -/
theorem articleSections_min (minChars : ℕ) (pageUrl : String) (arts : List HNode) :
    ∀ s ∈ articleSections minChars pageUrl arts, minChars ≤ s.text.length := by
  intro s hs
  unfold articleSections at hs
  rw [List.mem_filterMap] at hs
  obtain ⟨a, -, heq⟩ := hs
  dsimp only at heq
  by_cases hg : htmlToText (serializeNode a) ≠ "" ∧
      minChars ≤ (htmlToText (serializeNode a)).length
  · rw [if_pos hg, Option.some.injEq] at heq
    rw [← heq, mkSec_text]
    exact hg.2
  · rw [if_neg hg] at heq
    exact Option.noConfusion heq

/-- Heading-split sections are either carried over from the accumulator or
satisfy the minimum length. -/
theorem headingSections_min (minChars maxSections : ℕ) (pageUrl : String) :
    ∀ (blocks : List (HNode × List HNode)) (acc : List Sec),
      (∀ s ∈ acc, minChars ≤ s.text.length) →
      ∀ s ∈ headingSections minChars maxSections pageUrl acc blocks,
        minChars ≤ s.text.length := by
  intro blocks
  induction blocks with
  | nil =>
    intro acc hacc s hs
    exact hacc s hs
  | cons b rest ih =>
    intro acc hacc s hs
    obtain ⟨h, sibs⟩ := b
    unfold headingSections at hs
    dsimp only at hs
    split at hs
    · rename_i hg
      split at hs
      · rcases List.mem_append.1 hs with hmem | hmem
        · exact hacc s hmem
        · rw [List.mem_singleton] at hmem
          rw [hmem, mkSec_text]
          exact hg.2
      · refine ih _ ?_ s hs
        intro s' hs'
        rcases List.mem_append.1 hs' with hmem | hmem
        · exact hacc s' hmem
        · rw [List.mem_singleton] at hmem
          rw [hmem, mkSec_text]
          exact hg.2
    · split at hs
      · exact hacc s hs
      · exact ih acc hacc s hs

/-- Every section produced by the article/heading strategies satisfies the
minimum length. -/
theorem extractStage12_min (minChars maxSections : ℕ) (page : HNode) (url : String) :
    ∀ s ∈ extractStage12 minChars maxSections page url, minChars ≤ s.text.length := by
  intro s hs
  unfold extractStage12 at hs
  dsimp only at hs
  split at hs
  · split at hs
    · exact headingSections_min minChars maxSections url _ _
        (fun s' hs' => articleSections_min minChars url _ s' hs') s hs
    · exact articleSections_min minChars url _ s hs
  · split at hs
    · refine headingSections_min minChars maxSections url _ _ ?_ s hs
      intro s' hs'
      exact absurd hs' (List.not_mem_nil s')
    · exact absurd hs (List.not_mem_nil s)

/-- C3 (corrected): `extractSectionsFromHtml` returns at most
`MUNDO_MAX_SECTIONS` sections, and every section produced by the
article-split or heading-split strategies has plain-text length at least
`MUNDO_SECTION_MIN_CHARS`; but when both strategies produce nothing, the
whole-page fallback only guarantees **300** characters, which is below the
default minimum of 600. -/
theorem C3_amended_section_bounds (minChars maxSections : ℕ) (page : HNode) (url : String) :
    (extractSectionsFromHtml minChars maxSections page url).length ≤ maxSections ∧
    (extractStage12 minChars maxSections page url ≠ [] →
      ∀ s ∈ extractSectionsFromHtml minChars maxSections page url,
        minChars ≤ s.text.length) ∧
    (extractStage12 minChars maxSections page url = [] →
      ∀ s ∈ extractSectionsFromHtml minChars maxSections page url,
        300 ≤ s.text.length) := by
  refine ⟨?_, ?_, ?_⟩
  · unfold extractSectionsFromHtml
    dsimp only
    exact List.length_take_le maxSections _
  · intro hne s hs
    unfold extractSectionsFromHtml at hs
    dsimp only at hs
    rw [if_neg hne] at hs
    exact extractStage12_min minChars maxSections page url s (List.take_subset _ _ hs)
  · intro hnil s hs
    unfold extractSectionsFromHtml at hs
    dsimp only at hs
    rw [if_pos hnil] at hs
    have hs' := List.take_subset _ _ hs
    split at hs'
    · rename_i hg
      rw [List.mem_singleton] at hs'
      rw [hs', mkSec_text]
      exact hg.2
    · exact absurd hs' (List.not_mem_nil s)

set_option maxRecDepth 1000000 in
/-- C3 witness: on the 300-character bare page the strategies produce
nothing, and the returned fallback section satisfies the 300-character
bound. -/
theorem C3_witness :
    extractStage12 600 4 page300 "u" = [] ∧
    ∀ s ∈ extractSectionsFromHtml 600 4 page300 "u", 300 ≤ s.text.length :=
  ⟨by decide, (C3_amended_section_bounds 600 4 page300 "u").2.2 (by decide)⟩

set_option maxRecDepth 1000000 in
/-- C3 counterexample: a page whose body is a bare 300-character text run
yields exactly one section of plain-text length 300 under the default
configuration (`MUNDO_SECTION_MIN_CHARS = 600`, `MUNDO_MAX_SECTIONS = 4`),
so not every returned section reaches the configured minimum. -/
theorem C3_cex_fallback_below_min :
    ((extractSectionsFromHtml 600 4 page300 "u").map fun s => s.text.length) = [300] ∧
    ¬ ∀ s ∈ extractSectionsFromHtml 600 4 page300 "u", 600 ≤ s.text.length := by
  refine ⟨by decide, ?_⟩
  intro hall
  have h300 : ((extractSectionsFromHtml 600 4 page300 "u").map fun s => s.text.length)
      = [300] := by decide
  have hmem : ∃ s ∈ extractSectionsFromHtml 600 4 page300 "u", s.text.length = 300 := by
    have := List.mem_map.1 (h300 ▸ List.mem_singleton_self 300)
    obtain ⟨s, hs, hlen⟩ := this
    exact ⟨s, hs, hlen⟩
  obtain ⟨s, hs, hlen⟩ := hmem
  have := hall s hs
  omega

end Fpl
